import Mathlib

/-!
Verification development for the shorts_make collection agents.

The Python sources under `src/src/agents/` are shallowly embedded below.
Pure data transformations (text normalization, keyword filtering, record
assembly, result aggregation) are translated directly; external library
calls (the HTTP client, `xml.etree.ElementTree`, `json.loads`, the Gemini
SDK, the event-loop clock) are abstracted as function parameters or as
explicit inputs, so theorems quantify over their behaviour.  Time is
modelled with rationals, strings with Lean `String` (Python's Unicode
whitespace set is modelled by its ASCII fragment, which covers every
string the agents construct).
-/

namespace ShortsMake

/-! ## Text normalization (`scout_news._normalize_text`)

Python: `" ".join(value.replace("\n", " ").split()).strip()` with the
`if not value: return ""` guard.  `str.split()` with no separator splits
on runs of whitespace and drops empty fields; `str.strip()` trims
whitespace from both ends.  We work on `List Char` and wrap into
`String` at the boundary. -/

/-- ASCII fragment of Python's `str` whitespace predicate. -/
def isPySpace (c : Char) : Bool :=
  c = ' ' || c = '\t' || c = '\n' || c = '\r' || c = '\x0b' || c = '\x0c'

/-- `value.replace("\n", " ")` for a single-character pattern is a map. -/
def replaceNl (l : List Char) : List Char :=
  l.map (fun c => if c = '\n' then ' ' else c)

/-- `str.split()` with no argument: split on whitespace runs, dropping
empty fields.  `acc` is the current token, reversed. -/
def splitWs : List Char → List Char → List (List Char)
  | [], acc => if acc.isEmpty then [] else [acc.reverse]
  | c :: cs, acc =>
    if isPySpace c then
      if acc.isEmpty then splitWs cs [] else acc.reverse :: splitWs cs []
    else
      splitWs cs (c :: acc)

/-- `" ".join(tokens)`. -/
def joinSpace : List (List Char) → List Char
  | [] => []
  | [t] => t
  | t :: t' :: rest => t ++ ' ' :: joinSpace (t' :: rest)

/-- `str.lstrip()` on char lists. -/
def lstripChars (l : List Char) : List Char :=
  l.dropWhile isPySpace

/-- `str.strip()` on char lists: trim whitespace at both ends. -/
def stripChars (l : List Char) : List Char :=
  ((lstripChars l).reverse.dropWhile isPySpace).reverse

/-- Python `str.strip()`. -/
def pythonStrip (s : String) : String :=
  ⟨stripChars s.data⟩

/-- `scout_news._normalize_text` on char lists. -/
def normalizeChars (l : List Char) : List Char :=
  if l.isEmpty then [] else stripChars (joinSpace (splitWs (replaceNl l) []))

/-- `scout_news._normalize_text` for a non-None argument (the `if not
value` guard collapses to the empty-string test). -/
def normalizeText (s : String) : String :=
  ⟨normalizeChars s.data⟩

/-- `scout_news._normalize_text` with the `None` case of `str | None`. -/
def normalizeTextOpt (v : Option String) : String :=
  normalizeText (v.getD "")

/-! ### Idempotence machinery for `normalizeText` -/

theorem splitWs_tokens {cs acc : List Char}
    (hacc : ∀ c ∈ acc, isPySpace c = false) :
    ∀ t ∈ splitWs cs acc, t ≠ [] ∧ ∀ c ∈ t, isPySpace c = false := by
  induction cs generalizing acc with
  | nil =>
    intro t ht
    simp only [splitWs] at ht
    by_cases h : acc.isEmpty
    · simp [h] at ht
    · simp [h] at ht
      subst ht
      refine ⟨?_, ?_⟩
      · simpa [List.isEmpty_iff] using h
      · intro c hc
        exact hacc c (by simpa using hc)
  | cons c cs ih =>
    intro t ht
    simp only [splitWs] at ht
    by_cases hsp : isPySpace c
    · simp only [hsp, if_true] at ht
      by_cases h : acc.isEmpty
      · simp [h] at ht
        exact ih (by simp) t ht
      · simp [h] at ht
        rcases ht with ht | ht
        · subst ht
          refine ⟨by simpa [List.isEmpty_iff] using h, ?_⟩
          intro c hc
          exact hacc c (by simpa using hc)
        · exact ih (by simp) t ht
    · simp only [hsp, if_false] at ht
      refine ih ?_ t ht
      intro d hd
      rcases List.mem_cons.mp hd with rfl | hd
      · simpa using hsp
      · exact hacc d hd

theorem splitWs_append_nonspace {tok : List Char}
    (htok : ∀ c ∈ tok, isPySpace c = false) :
    ∀ rest acc, splitWs (tok ++ rest) acc = splitWs rest (tok.reverse ++ acc) := by
  induction tok with
  | nil => intro rest acc; simp
  | cons c tok ih =>
    intro rest acc
    have hc : isPySpace c = false := htok c (by simp)
    rw [List.cons_append]
    rw [show splitWs (c :: (tok ++ rest)) acc = splitWs (tok ++ rest) (c :: acc) by
      simp [splitWs, hc]]
    rw [ih (fun d hd => htok d (by simp [hd])) rest (c :: acc)]
    simp

theorem splitWs_joinSpace {toks : List (List Char)}
    (h : ∀ t ∈ toks, t ≠ [] ∧ ∀ c ∈ t, isPySpace c = false) :
    splitWs (joinSpace toks) [] = toks := by
  induction toks with
  | nil => simp [joinSpace, splitWs]
  | cons t rest ih =>
    obtain ⟨hne, hsp⟩ := h t (by simp)
    cases rest with
    | nil =>
      have := splitWs_append_nonspace hsp [] []
      simp only [List.append_nil] at this
      simp only [joinSpace, this, splitWs, List.append_nil]
      simp [List.isEmpty_iff, hne]
    | cons t' rest' =>
      simp only [joinSpace]
      rw [show t ++ ' ' :: joinSpace (t' :: rest') =
        t ++ (' ' :: joinSpace (t' :: rest')) from rfl]
      rw [splitWs_append_nonspace hsp, List.append_nil]
      have hsp' : isPySpace ' ' = true := by decide
      simp only [splitWs, hsp', if_true]
      have hne' : (t.reverse).isEmpty = false := by
        simp [List.isEmpty_iff, hne]
      simp only [hne', Bool.false_eq_true, if_false, List.reverse_reverse]
      rw [ih (fun u hu => h u (by simp [hu]))]

theorem head_append_ne_nil {t rest : List Char} (h : t ≠ []) :
    (t ++ rest).head? = t.head? := by
  cases t with
  | nil => exact absurd rfl h
  | cons a l => simp

theorem joinSpace_head {toks : List (List Char)}
    (h : ∀ t ∈ toks, t ≠ [] ∧ ∀ c ∈ t, isPySpace c = false) :
    ∀ c, (joinSpace toks).head? = some c → isPySpace c = false := by
  intro c hc
  cases toks with
  | nil => simp [joinSpace] at hc
  | cons t rest =>
    obtain ⟨hne, hsp⟩ := h t (by simp)
    have hhead : (joinSpace (t :: rest)).head? = t.head? := by
      cases rest with
      | nil => simp [joinSpace]
      | cons t' rest' =>
        show (t ++ ' ' :: joinSpace (t' :: rest')).head? = t.head?
        exact head_append_ne_nil hne
    rw [hhead] at hc
    exact hsp c (List.mem_of_mem_head? hc)

theorem joinSpace_reverse_head {toks : List (List Char)}
    (h : ∀ t ∈ toks, t ≠ [] ∧ ∀ c ∈ t, isPySpace c = false)
    (hne : toks ≠ []) :
    ∃ c l', (joinSpace toks).reverse = c :: l' ∧ isPySpace c = false := by
  induction toks with
  | nil => exact absurd rfl hne
  | cons t rest ih =>
    obtain ⟨htne, hsp⟩ := h t (by simp)
    cases rest with
    | nil =>
      obtain ⟨c, l', hcl⟩ := List.exists_cons_of_ne_nil
        (show t.reverse ≠ [] by simp [htne])
      refine ⟨c, l', by simpa [joinSpace] using hcl, ?_⟩
      have : c ∈ t := by
        have : c ∈ t.reverse := by rw [hcl]; simp
        simpa using this
      exact hsp c this
    | cons t' rest' =>
      obtain ⟨c, l', hcl, hcsp⟩ := ih (fun u hu => h u (by simp [hu])) (by simp)
      refine ⟨c, l' ++ ' ' :: t.reverse, ?_, hcsp⟩
      simp only [joinSpace, List.reverse_append, List.reverse_cons]
      rw [show (joinSpace (t' :: rest')).reverse ++ [' '] ++ t.reverse =
        (joinSpace (t' :: rest')).reverse ++ (' ' :: t.reverse) by simp]
      rw [hcl]
      simp

theorem dropWhile_eq_self_of_head {l : List Char}
    (h : ∀ c, l.head? = some c → isPySpace c = false) :
    l.dropWhile isPySpace = l := by
  cases l with
  | nil => rfl
  | cons a l => simp [List.dropWhile, h a rfl]

theorem stripChars_joinSpace {toks : List (List Char)}
    (h : ∀ t ∈ toks, t ≠ [] ∧ ∀ c ∈ t, isPySpace c = false) :
    stripChars (joinSpace toks) = joinSpace toks := by
  cases toks with
  | nil => rfl
  | cons t rest =>
    have h1 : lstripChars (joinSpace (t :: rest)) = joinSpace (t :: rest) :=
      dropWhile_eq_self_of_head (joinSpace_head h)
    obtain ⟨c, l', hcl, hcsp⟩ := joinSpace_reverse_head h (by simp)
    unfold stripChars
    rw [h1, hcl]
    simp only [List.dropWhile, hcsp, Bool.false_eq_true, if_false]
    rw [← hcl, List.reverse_reverse]

theorem replaceNl_append (a b : List Char) :
    replaceNl (a ++ b) = replaceNl a ++ replaceNl b :=
  List.map_append _ _ _

theorem replaceNl_eq_self {t : List Char}
    (h : ∀ c ∈ t, isPySpace c = false) : replaceNl t = t := by
  induction t with
  | nil => rfl
  | cons c cs ih =>
    have hc : c ≠ '\n' := by
      intro hceq
      have hcf := h c (by simp)
      subst hceq
      simp [isPySpace] at hcf
    simp only [replaceNl, List.map_cons, if_neg hc]
    exact congrArg (c :: ·) (ih fun d hd => h d (by simp [hd]))

theorem replaceNl_joinSpace {toks : List (List Char)}
    (h : ∀ t ∈ toks, t ≠ [] ∧ ∀ c ∈ t, isPySpace c = false) :
    replaceNl (joinSpace toks) = joinSpace toks := by
  induction toks with
  | nil => rfl
  | cons t rest ih =>
    obtain ⟨_, hsp⟩ := h t (by simp)
    cases rest with
    | nil => simpa [joinSpace] using replaceNl_eq_self hsp
    | cons t' rest' =>
      have hrest := ih (fun u hu => h u (by simp [hu]))
      show replaceNl (t ++ ' ' :: joinSpace (t' :: rest')) = _
      rw [replaceNl_append, replaceNl_eq_self hsp,
        show replaceNl (' ' :: joinSpace (t' :: rest')) =
          ' ' :: replaceNl (joinSpace (t' :: rest')) by simp [replaceNl],
        hrest]
      rfl

theorem joinSpace_ne_nil {toks : List (List Char)}
    (h : ∀ t ∈ toks, t ≠ [] ∧ ∀ c ∈ t, isPySpace c = false)
    (hne : toks ≠ []) : joinSpace toks ≠ [] := by
  cases toks with
  | nil => exact absurd rfl hne
  | cons t rest =>
    obtain ⟨htne, _⟩ := h t (by simp)
    cases rest with
    | nil => simpa [joinSpace] using htne
    | cons t' rest' =>
      simp only [joinSpace]
      intro hcontra
      exact htne (List.append_eq_nil.mp hcontra).1

theorem normalizeChars_idem (l : List Char) :
    normalizeChars (normalizeChars l) = normalizeChars l := by
  by_cases hl : l.isEmpty
  · simp [normalizeChars, hl]
  · have htoks := fun t ht => @splitWs_tokens (replaceNl l) []
      (by intro c hc; simp at hc) t ht
    have hstrip := stripChars_joinSpace htoks
    have hfirst : normalizeChars l = joinSpace (splitWs (replaceNl l) []) := by
      simp [normalizeChars, hl, hstrip]
    rw [hfirst]
    set toks := splitWs (replaceNl l) [] with htoksdef
    by_cases htne : toks = []
    · simp [htne, joinSpace, normalizeChars]
    · have hjne : joinSpace toks ≠ [] := joinSpace_ne_nil htoks htne
      have hjempty : (joinSpace toks).isEmpty = false := by
        simp [List.isEmpty_iff, hjne]
      simp only [normalizeChars, hjempty, Bool.false_eq_true, if_false]
      rw [replaceNl_joinSpace htoks, splitWs_joinSpace htoks, hstrip]

theorem normalizeText_idem (s : String) :
    normalizeText (normalizeText s) = normalizeText s :=
  congrArg String.mk (normalizeChars_idem s.data)

/-! ## News scout (`scout_news.py`)

`ET.fromstring` plus the `.//item` / `findtext` walk is the XML library;
it is abstracted as a function `xmlParse : String → Except String (List
RssRawItem)` producing the per-item raw field texts (`findtext` yields
`None` for a missing element, hence `Option String`), with the
`ET.ParseError` text in the `error` case.  Everything past that point is
translated from the source.  The HTTP fetch phase is abstracted as a
function from a source to its `(ok, text)` result; the collector's second
component is the trace of sources actually fetched. -/

/-- `scout_news.AI_KEYWORDS`. -/
def AI_KEYWORDS : List String :=
  ["ai", "artificial intelligence", "machine learning", "deep learning",
   "generative ai", "llm"]

/-- `scout_news.SEMICONDUCTOR_KEYWORDS`. -/
def SEMICONDUCTOR_KEYWORDS : List String :=
  ["semiconductor", "chip", "foundry", "fab", "wafer", "gpu", "memory", "hbm"]

/-- One entry of `scout_news.NEWS_SOURCES`: topic, name, url. -/
structure NewsSource where
  topic : String
  name : String
  url : String

/-- Raw texts of one `<item>` element as `findtext` returns them
(`none` when the child element is missing). -/
structure RssRawItem where
  title : Option String
  link : Option String
  pubDate : Option String
  description : Option String

/-- One normalized headline record built by `_parse_rss_items`. -/
structure RssItem where
  title : String
  url : String
  published : String
  summary : String
  source : String
  sourceUrl : String

/-- `scout_news._parse_rss_items` after the `ET` walk: normalize each
field, skip items whose normalized title is empty. -/
def parseRssItems (rawItems : List RssRawItem) (sourceName sourceUrl : String) :
    List RssItem :=
  rawItems.filterMap fun raw =>
    let title := normalizeTextOpt raw.title
    if title = "" then none
    else some
      { title
        url := normalizeTextOpt raw.link
        published := normalizeTextOpt raw.pubDate
        summary := normalizeTextOpt raw.description
        source := sourceName
        sourceUrl }

/-- Lowercasing used by `_matches_keywords` (`str.lower`, ASCII fragment). -/
def lowerChars (l : List Char) : List Char :=
  l.map Char.toLower

/-- Bool-valued list-prefix test. -/
def isPrefixChars : List Char → List Char → Bool
  | [], _ => true
  | _ :: _, [] => false
  | a :: as, b :: bs => a == b && isPrefixChars as bs

/-- Bool-valued substring test, modelling Python's `needle in hay`. -/
def isInfixChars (needle : List Char) : List Char → Bool
  | [] => needle.isEmpty
  | c :: rest => isPrefixChars needle (c :: rest) || isInfixChars needle rest

/-- `scout_news._matches_keywords`: case-insensitive substring match of
any keyword in the text. -/
def matchesKeywords (text : String) (keywords : List String) : Bool :=
  let lowered := lowerChars text.data
  keywords.any fun keyword => isInfixChars (lowerChars keyword.data) lowered

/-- Keyword-set selection inside `_filter_headlines`:
`AI_KEYWORDS` if the topic is `"ai"`, else `SEMICONDUCTOR_KEYWORDS`. -/
def topicKeywords (topic : String) : List String :=
  if topic = "ai" then AI_KEYWORDS else SEMICONDUCTOR_KEYWORDS

/-- `scout_news._filter_headlines`: keep items whose
`f"{title} {summary}"` matches a topic keyword. -/
def filterHeadlines (items : List RssItem) (topic : String) : List RssItem :=
  let keywords := topicKeywords topic
  items.filter fun item =>
    matchesKeywords (item.title ++ " " ++ item.summary) keywords

/-- Result of one collector run.  The Python functions return
`(True, json.dumps(payload))` on success; the `json.dumps` serialization
(a stdlib call that the claims never inspect) is abstracted away and the
structured payload kept. -/
inductive Outcome (α : Type) where
  | ok (payload : α)
  | fail (msg : String)

/-- One element of the `payload` list built by `collect_news_headlines`. -/
structure NewsGroup where
  topic : String
  source : String
  sourceUrl : String
  items : List RssItem

/-- The per-source failure message `collect_news_headlines` records:
`f"{name}: {body}"` on a transport failure, `f"{name}: XML 파싱 실패
({exc})"` on an `ET.ParseError`, nothing on success. -/
def newsFailMsg (xmlParse : String → Except String (List RssRawItem)) :
    NewsSource × (Bool × String) → Option String
  | (src, (ok, body)) =>
    if ok = false then some (src.name ++ ": " ++ body)
    else
      match xmlParse body with
      | .error e => some (src.name ++ ": XML 파싱 실패 (" ++ e ++ ")")
      | .ok _ => none

/-- The `for source, (ok, xml_text) in zip(sources, results)` loop of
`collect_news_headlines`, returning `(payload, errors)` in order. -/
def newsAgg (xmlParse : String → Except String (List RssRawItem)) (maxItems : Nat) :
    List (NewsSource × (Bool × String)) → List NewsGroup × List String
  | [] => ([], [])
  | (src, (ok, body)) :: rest =>
    let acc := newsAgg xmlParse maxItems rest
    if ok = false then (acc.1, (src.name ++ ": " ++ body) :: acc.2)
    else
      match xmlParse body with
      | .error e => (acc.1, (src.name ++ ": XML 파싱 실패 (" ++ e ++ ")") :: acc.2)
      | .ok raw =>
        let items := parseRssItems raw src.name src.url
        let filtered := filterHeadlines items src.topic
        ({ topic := src.topic, source := src.name, sourceUrl := src.url,
           items := filtered.take (maxItems * 2) } :: acc.1, acc.2)

/-- `scout_news.collect_news_headlines`.  `fetch` abstracts the
rate-limited HTTP phase (`asyncio.gather` keeps results in source
order); the second component is the list of sources fetched, empty when
the function returns before creating the HTTP client. -/
def collectNewsHeadlines (xmlParse : String → Except String (List RssRawItem))
    (fetch : NewsSource → Bool × String) (sources : List NewsSource)
    (maxItems : Nat) : Outcome (List NewsGroup) × List NewsSource :=
  if sources.isEmpty then (.fail "뉴스 소스가 비어 있습니다.", [])
  else
    let results := sources.map fetch
    let acc := newsAgg xmlParse maxItems (sources.zip results)
    (if acc.2.isEmpty then .ok acc.1
     else .fail (String.intercalate "; " acc.2), sources)

/-! ## Rate limiter (`scout_news._rate_limited_get`,
`scout_history._rate_limited_get`)

One pass of the locked section, with the event-loop clock explicit:
`tAcq` is the monotonic time at which the caller holds the lock and reads
the clock, `lastReq` the value of `last_request[0]` it reads, `dur ≥ 0`
the duration of the `client.get` call, `succ` whether that call (and
`raise_for_status`) succeeds.  The caller computes
`wait = max(0, rate - (tAcq - lastReq))`, sleeps that long, fires the
request, and — only on success — writes the completion time back into
`last_request[0]` before releasing the lock. -/

/-- `scout_news.RATE_LIMIT_SECONDS` (1.5 seconds). -/
def RATE_LIMIT_SECONDS : ℚ := 3 / 2

/-- `scout_history.RATE_LIMIT_SECONDS` (3.0 seconds). -/
def HISTORY_RATE_LIMIT_SECONDS : ℚ := 3

/-- Observable effects of one `_rate_limited_get` call: whether it
returned success, when the HTTP request was fired, the value of
`last_request[0]` after the call, whether that cell was written, and
when the lock was released. -/
structure RLRun where
  ok : Bool
  fireTime : ℚ
  newLast : ℚ
  wrote : Bool
  release : ℚ

/-- One `_rate_limited_get` critical section. -/
def rateLimitedGet (rate lastReq tAcq dur : ℚ) (succ : Bool) : RLRun :=
  let wait := max 0 (rate - (tAcq - lastReq))
  let fire := tAcq + wait
  let fin := fire + dur
  if succ then ⟨true, fire, fin, true, fin⟩
  else ⟨false, fire, lastReq, false, fin⟩

/-! ## YouTube scout (`scout_youtube.py`)

`json.loads` is abstracted as `decode : String → Except String Json`
over a small JSON value type; the HTTP phase as
`fetch apiKey keyword = (ok, body)` (the semaphore only bounds
concurrency and does not affect the gathered results, which stay in
keyword order).  The environment is a partial map. -/

/-- JSON values, as far as `collect_youtube_videos` inspects them. -/
inductive Json where
  | null
  | bool (b : Bool)
  | num (n : Int)
  | str (s : String)
  | arr (elems : List Json)
  | obj (fields : List (String × Json))

/-- Dict lookup (`dict.get` without default). -/
def jLookup : List (String × Json) → String → Option Json
  | [], _ => none
  | (k, v) :: rest, key => if k = key then some v else jLookup rest key

/-- `value.get(key, default)`; only ever applied to dicts in the source
(a non-dict would raise in Python, which no claim exercises). -/
def jGetD (j : Json) (key : String) (d : Json) : Json :=
  match j with
  | .obj fields => (jLookup fields key).getD d
  | _ => d

/-- String field with `""` default (`snippet.get(key, "")`); a non-string
value in that slot is modelled by the default. -/
def jStrD (j : Json) (key : String) : String :=
  match jGetD j key (.str "") with
  | .str s => s
  | _ => ""

/-- One video record built by `_parse_youtube_items`. -/
structure YtVideo where
  title : String
  videoId : String
  published : String
  channel : String
  summary : String
  link : String
  sourceUrl : String

/-- `scout_youtube._parse_youtube_items`. -/
def parseYoutubeItems (items : List Json) : List YtVideo :=
  items.map fun item =>
    let snippet := jGetD item "snippet" (.obj [])
    let videoId := jStrD (jGetD item "id" (.obj [])) "videoId"
    let link := if videoId = "" then ""
      else "https://www.youtube.com/watch?v=" ++ videoId
    { title := jStrD snippet "title"
      videoId
      published := jStrD snippet "publishedAt"
      channel := jStrD snippet "channelTitle"
      summary := jStrD snippet "description"
      link
      sourceUrl := link }

/-- One element of the `payload` list of `collect_youtube_videos`. -/
structure YtGroup where
  keyword : String
  videos : List YtVideo

/-- `data.get("items", []) if isinstance(data, dict) else []`.  A present
non-list `"items"` value would make the Python item loop raise; no claim
reaches that case, it is modelled as the empty list. -/
def ytItems (data : Json) : List Json :=
  match data with
  | .obj fields =>
    match jLookup fields "items" with
    | some (.arr xs) => xs
    | some _ => []
    | none => []
  | _ => []

/-- Per-keyword failure message recorded by `collect_youtube_videos`. -/
def ytFailMsg (decode : String → Except String Json) :
    String × (Bool × String) → Option String
  | (kw, (ok, body)) =>
    if ok = false then some (kw ++ ": " ++ body)
    else
      match decode body with
      | .error e => some (kw ++ ": JSON 파싱 실패 (" ++ e ++ ")")
      | .ok _ => none

/-- The `for keyword, (ok, body) in zip(keywords, results)` loop of
`collect_youtube_videos`. -/
def ytAgg (decode : String → Except String Json) :
    List (String × (Bool × String)) → List YtGroup × List String
  | [] => ([], [])
  | (kw, (ok, body)) :: rest =>
    let acc := ytAgg decode rest
    if ok = false then (acc.1, (kw ++ ": " ++ body) :: acc.2)
    else
      match decode body with
      | .error e => (acc.1, (kw ++ ": JSON 파싱 실패 (" ++ e ++ ")") :: acc.2)
      | .ok data =>
        ({ keyword := kw, videos := parseYoutubeItems (ytItems data) } :: acc.1,
         acc.2)

/-- `scout_youtube._get_api_key`. -/
def getApiKey (env : String → Option String) : Option String :=
  env "YOUTUBE_API_KEY"

/-- `scout_youtube.collect_youtube_videos`.  The trace component lists
the keywords actually fetched; `if not api_key` in Python is true for
both a missing and an empty variable. -/
def collectYoutubeVideos (decode : String → Except String Json)
    (env : String → Option String) (fetch : String → String → Bool × String)
    (keywords : List String) : Outcome (List YtGroup) × List String :=
  if keywords.isEmpty then (.fail "검색 키워드가 비어 있습니다.", [])
  else
    match getApiKey env with
    | none => (.fail "YOUTUBE_API_KEY가 설정되지 않았습니다.", [])
    | some apiKey =>
      if apiKey = "" then (.fail "YOUTUBE_API_KEY가 설정되지 않았습니다.", [])
      else
        let results := keywords.map (fetch apiKey)
        let acc := ytAgg decode (keywords.zip results)
        (if acc.2.isEmpty then .ok acc.1
         else .fail (String.intercalate "; " acc.2), keywords)

/-! ## History scout (`scout_history.py`)

Same shape as the news scout; the key prefixed to each error message is
the Python `str()` rendering of the keyword list, modelled for keyword
strings containing no quotes or escapes (the only kind the repo uses). -/

/-- Raw texts of one Atom `<entry>` as the `findtext`/`attrib` walk
yields them (`none` for a missing element or attribute). -/
structure AtomRawEntry where
  title : Option String
  summary : Option String
  paperId : Option String
  published : Option String
  updated : Option String
  doi : Option String
  categoryTerm : Option String
  authors : List (Option String)
  linkHrefs : List (Option String)

/-- One paper record built by `scout_history._parse_arxiv_feed`. -/
structure ArxivPaperH where
  title : String
  summary : String
  paperId : String
  published : String
  updated : String
  authors : List String
  doi : String
  primaryCategory : String
  sourceUrl : String
  links : List String

/-- `scout_history._parse_arxiv_feed` after the `ET` walk: `.strip()`
each text, drop empty author names, keep only truthy link hrefs. -/
def parseArxivFeedHistory (entries : List AtomRawEntry) : List ArxivPaperH :=
  entries.map fun e =>
    let paperId := pythonStrip (e.paperId.getD "")
    { title := pythonStrip (e.title.getD "")
      summary := pythonStrip (e.summary.getD "")
      paperId
      published := pythonStrip (e.published.getD "")
      updated := pythonStrip (e.updated.getD "")
      authors := ((e.authors.map fun a => pythonStrip (a.getD "")).filter
        fun a => a ≠ "")
      doi := pythonStrip (e.doi.getD "")
      primaryCategory := e.categoryTerm.getD ""
      sourceUrl := paperId
      links := e.linkHrefs.filterMap fun h =>
        match h with
        | some s => if s = "" then none else some s
        | none => none }

/-- Raw texts of one Atom `<entry>` for `scout_arxiv.parse_arxiv_feed`. -/
structure ArxivRawEntryA where
  title : Option String
  summary : Option String
  paperId : Option String
  published : Option String
  authors : List (Option String)

/-- One paper record built by `scout_arxiv.parse_arxiv_feed`. -/
structure ArxivPaperA where
  title : String
  summary : String
  paperId : String
  published : String
  authors : List String

/-- `scout_arxiv.parse_arxiv_feed` after the `ET` walk. -/
def parseArxivFeed (entries : List ArxivRawEntryA) : List ArxivPaperA :=
  entries.map fun e =>
    { title := pythonStrip (e.title.getD "")
      summary := pythonStrip (e.summary.getD "")
      paperId := pythonStrip (e.paperId.getD "")
      published := pythonStrip (e.published.getD "")
      authors := ((e.authors.map fun a => pythonStrip (a.getD "")).filter
        fun a => a ≠ "") }

/-- Python `str()` of a list of plain strings, e.g.
`['Napoleon Bonaparte']`. -/
def pyReprStrList (keywords : List String) : String :=
  "[" ++ String.intercalate ", " (keywords.map fun k => "\x27" ++ k ++ "\x27")
    ++ "]"

/-- One element of the `payload` list of `collect_history_facts`. -/
structure HistGroup where
  keywords : List String
  papers : List ArxivPaperH

/-- Per-query failure message recorded by `collect_history_facts`. -/
def histFailMsg (histParse : String → Except String (List AtomRawEntry)) :
    List String × (Bool × String) → Option String
  | (keywords, (ok, body)) =>
    if ok = false then some (pyReprStrList keywords ++ ": " ++ body)
    else
      match histParse body with
      | .error e =>
        some (pyReprStrList keywords ++ ": XML 파싱 실패 (" ++ e ++ ")")
      | .ok _ => none

/-- The `for keywords, (ok, xml_text) in zip(queries, results)` loop of
`collect_history_facts`. -/
def histAgg (histParse : String → Except String (List AtomRawEntry)) :
    List (List String × (Bool × String)) → List HistGroup × List String
  | [] => ([], [])
  | (keywords, (ok, body)) :: rest =>
    let acc := histAgg histParse rest
    if ok = false then (acc.1, (pyReprStrList keywords ++ ": " ++ body) :: acc.2)
    else
      match histParse body with
      | .error e =>
        (acc.1,
         (pyReprStrList keywords ++ ": XML 파싱 실패 (" ++ e ++ ")") :: acc.2)
      | .ok entries =>
        ({ keywords, papers := parseArxivFeedHistory entries } :: acc.1, acc.2)

/-- `scout_history.collect_history_facts`; the URL building inside
`fetch_query` is folded into the abstract `fetch` (the claims never
inspect the URL).  Trace component as for the news collector. -/
def collectHistoryFacts (histParse : String → Except String (List AtomRawEntry))
    (fetch : List String → Bool × String) (queries : List (List String)) :
    Outcome (List HistGroup) × List (List String) :=
  if queries.isEmpty then (.fail "검색 키워드가 비어 있습니다.", [])
  else
    let results := queries.map fetch
    let acc := histAgg histParse (queries.zip results)
    (if acc.2.isEmpty then .ok acc.1
     else .fail (String.intercalate "; " acc.2), queries)

/-! ## Humanizer (`humanizer.py`)

The Gemini SDK calls are abstracted as `configure` and `generate`
functions; `_summarize_with_gemini` returns its `(ok, text)` pair
together with the trace of model names actually invoked. -/

/-- `humanizer._select_model_candidates`, with the two module constants
(`os.getenv("GEMINI_MODEL", "gemini-2.5-flash")` and the fallback)
passed in. -/
def selectModelCandidates (primary fallback : String) : List String :=
  let candidates := [primary]
  let candidates :=
    if fallback ≠ "" ∧ fallback ∉ candidates then candidates ++ [fallback]
    else candidates
  if "gemini-1.5-flash" ∈ candidates then candidates
  else candidates ++ ["gemini-1.5-flash"]

/-- The `for model_name in _select_model_candidates()` loop of
`_summarize_with_gemini`, threading `last_error` and tracing the model
names tried. -/
def tryModels (generate : String → Bool × String) :
    List String → String → (Bool × String) × List String
  | [], lastError => ((false, lastError), [])
  | m :: rest, lastError =>
    match generate m with
    | (true, result) => ((true, result), [m])
    | (false, result) =>
      let acc := tryModels generate rest (m ++ ": " ++ result)
      (acc.1, m :: acc.2)

/-- `humanizer._summarize_with_gemini`.  The trace is the list of model
names handed to `genai.GenerativeModel(...).generate_content`; it is
empty whenever the function fails before reaching the model loop. -/
def summarizeWithGemini (env : String → Option String)
    (configure : String → Bool × String)
    (generate : String → String → Bool × String) (prompt : String) :
    (Bool × String) × List String :=
  match env "GEMINI_API_KEY" with
  | none => ((false, "GEMINI_API_KEY가 설정되지 않았습니다."), [])
  | some apiKey =>
    if apiKey = "" then ((false, "GEMINI_API_KEY가 설정되지 않았습니다."), [])
    else
      match configure apiKey with
      | (false, msg) => ((false, msg), [])
      | (true, _) =>
        tryModels (fun m => generate m prompt)
          (selectModelCandidates ((env "GEMINI_MODEL").getD "gemini-2.5-flash")
            ((env "GEMINI_FALLBACK_MODEL").getD "gemini-1.5-flash")) ""

/-- Top-level names defined by executing `scout_arxiv.py` (its imports,
constants and functions), i.e. the attributes `getattr` can find on the
dynamically loaded module. -/
def scoutArxivModuleNames : List String :=
  ["annotations", "asyncio", "Any", "ET", "quote", "httpx",
   "ARXIV_API_URL", "build_query_url", "parse_arxiv_feed",
   "fetch_arxiv_papers", "format_paper_output",
   "format_history_of_science_output", "print_history_of_science_papers",
   "main"]

/-- Outcome of a Python coroutine that can also raise. -/
inductive PyOutcome where
  | ok (payload : String)
  | err (msg : String)
  | exc (kind : String)

/-- Attribute lookup on a loaded module. -/
def moduleHasAttr (names : List String) (attr : String) : Bool :=
  names.contains attr

/-- `humanizer.collect_scout_payloads` under the premise that both
`_import_scout_module` calls succeed: the expression
`arxiv_module.collect_arxiv_papers(arxiv_module.DEFAULT_QUERIES, ...)`
first resolves both attributes on the loaded `scout_arxiv` module and
raises `AttributeError` (uncaught — only `exec_module` is inside a
`try`) if either is missing; `afterLookup` abstracts everything the
function would do past those lookups. -/
def collectScoutPayloads (afterLookup : PyOutcome) : PyOutcome :=
  if moduleHasAttr scoutArxivModuleNames "collect_arxiv_papers" &&
      moduleHasAttr scoutArxivModuleNames "DEFAULT_QUERIES" then afterLookup
  else .exc "AttributeError"

/-- `humanizer.run_humanizer`: propagate a failure or exception from
`collect_scout_payloads`, otherwise hand the payload to the downstream
script-building step (abstracted). -/
def runHumanizer (afterLookup : PyOutcome) (downstream : String → PyOutcome) :
    PyOutcome :=
  match collectScoutPayloads afterLookup with
  | .exc kind => .exc kind
  | .err msg => .err msg
  | .ok payload => downstream payload

/-! ## Supporting lemmas -/

theorem head?_dropWhile_false {p : Char → Bool} :
    ∀ {l : List Char} {c : Char}, (l.dropWhile p).head? = some c → p c = false := by
  intro l
  induction l with
  | nil => intro c h; simp [List.dropWhile] at h
  | cons a rest ih =>
    intro c h
    by_cases ha : p a
    · exact ih (by simpa [List.dropWhile, ha] using h)
    · have : a = c := by simpa [List.dropWhile, ha] using h
      subst this
      simpa using ha

theorem dropWhile_dropWhile (p : Char → Bool) (l : List Char) :
    (l.dropWhile p).dropWhile p = l.dropWhile p := by
  cases hd : (l.dropWhile p) with
  | nil => rfl
  | cons c rest =>
    have hc : p c = false := head?_dropWhile_false (l := l) (by rw [hd]; rfl)
    simp [List.dropWhile, hc]

theorem stripChars_idem (l : List Char) :
    stripChars (stripChars l) = stripChars l := by
  have hSL : stripChars l
      = ((l.dropWhile isPySpace).reverse.dropWhile isPySpace).reverse := rfl
  set a := l.dropWhile isPySpace with ha
  set b := a.reverse.dropWhile isPySpace with hb
  have hdb : b.dropWhile isPySpace = b := by
    rw [hb]
    exact dropWhile_dropWhile _ _
  have hrev : b.reverse.dropWhile isPySpace = b.reverse := by
    apply dropWhile_eq_self_of_head
    intro c hc
    rw [List.head?_reverse] at hc
    have hbne : b ≠ [] := by
      intro hnil
      rw [hnil] at hc
      simp at hc
    obtain ⟨t, ht⟩ := List.dropWhile_suffix (l := a.reverse) isPySpace
    rw [← hb] at ht
    have h1 : b.getLast? = a.reverse.getLast? := by
      rw [← ht]
      exact (List.getLast?_append_of_ne_nil t hbne).symm
    rw [h1, List.getLast?_reverse, ha] at hc
    exact head?_dropWhile_false hc
  rw [hSL]
  have hSB : stripChars b.reverse
      = ((b.reverse.dropWhile isPySpace).reverse.dropWhile isPySpace).reverse := rfl
  rw [hSB, hrev, List.reverse_reverse, hdb]

theorem pythonStrip_idem (s : String) :
    pythonStrip (pythonStrip s) = pythonStrip s :=
  congrArg String.mk (stripChars_idem s.data)

theorem newsAgg_zip_errors (xmlParse : String → Except String (List RssRawItem))
    (maxItems : Nat) (fetch : NewsSource → Bool × String) :
    ∀ sources : List NewsSource,
      (newsAgg xmlParse maxItems (sources.zip (sources.map fetch))).2 =
        sources.filterMap fun s => newsFailMsg xmlParse (s, fetch s) := by
  intro sources
  induction sources with
  | nil => rfl
  | cons s ss ih =>
    rcases hfs : fetch s with ⟨ok, body⟩
    have hz : (s :: ss).zip ((s :: ss).map fetch) =
        (s, (ok, body)) :: ss.zip (ss.map fetch) := by
      simp [hfs]
    rw [hz, List.filterMap_cons]
    cases ok with
    | false => simp [newsAgg, newsFailMsg, hfs, ih]
    | true =>
      rcases hp : xmlParse body with e | raw
      · simp [newsAgg, newsFailMsg, hfs, hp, ih]
      · simp [newsAgg, newsFailMsg, hfs, hp, ih]

theorem ytAgg_zip_errors (decode : String → Except String Json)
    (fetchK : String → Bool × String) :
    ∀ keywords : List String,
      (ytAgg decode (keywords.zip (keywords.map fetchK))).2 =
        keywords.filterMap fun kw => ytFailMsg decode (kw, fetchK kw) := by
  intro keywords
  induction keywords with
  | nil => rfl
  | cons kw rest ih =>
    rcases hfs : fetchK kw with ⟨ok, body⟩
    have hz : (kw :: rest).zip ((kw :: rest).map fetchK) =
        (kw, (ok, body)) :: rest.zip (rest.map fetchK) := by
      simp [hfs]
    rw [hz, List.filterMap_cons]
    cases ok with
    | false => simp [ytAgg, ytFailMsg, hfs, ih]
    | true =>
      rcases hp : decode body with e | data
      · simp [ytAgg, ytFailMsg, hfs, hp, ih]
      · simp [ytAgg, ytFailMsg, hfs, hp, ih]

theorem histAgg_zip_errors (histParse : String → Except String (List AtomRawEntry))
    (fetch : List String → Bool × String) :
    ∀ queries : List (List String),
      (histAgg histParse (queries.zip (queries.map fetch))).2 =
        queries.filterMap fun q => histFailMsg histParse (q, fetch q) := by
  intro queries
  induction queries with
  | nil => rfl
  | cons q rest ih =>
    rcases hfs : fetch q with ⟨ok, body⟩
    have hz : (q :: rest).zip ((q :: rest).map fetch) =
        (q, (ok, body)) :: rest.zip (rest.map fetch) := by
      simp [hfs]
    rw [hz, List.filterMap_cons]
    cases ok with
    | false => simp [histAgg, histFailMsg, hfs, ih]
    | true =>
      rcases hp : histParse body with e | entries
      · simp [histAgg, histFailMsg, hfs, hp, ih]
      · simp [histAgg, histFailMsg, hfs, hp, ih]

theorem mem_filterHeadlines {items : List RssItem} {topic : String} {it : RssItem}
    (h : it ∈ filterHeadlines items topic) :
    matchesKeywords (it.title ++ " " ++ it.summary) (topicKeywords topic) = true :=
  (List.mem_filter.mp h).2

theorem newsAgg_zip_success (xmlParse : String → Except String (List RssRawItem))
    (maxItems : Nat) (fetch : NewsSource → Bool × String)
    (sources : List NewsSource)
    (hok : ∀ src ∈ sources, (fetch src).1 = true)
    (hparse : ∀ src ∈ sources, ∃ raw, xmlParse (fetch src).2 = Except.ok raw) :
    (newsAgg xmlParse maxItems (sources.zip (sources.map fetch))).2 = [] ∧
    (newsAgg xmlParse maxItems (sources.zip (sources.map fetch))).1.map
      NewsGroup.source = sources.map NewsSource.name ∧
    ∀ g ∈ (newsAgg xmlParse maxItems (sources.zip (sources.map fetch))).1,
      ∀ it ∈ g.items,
        matchesKeywords (it.title ++ " " ++ it.summary)
          (topicKeywords g.topic) = true := by
  induction sources with
  | nil => exact ⟨rfl, rfl, by intro g hg; simp [newsAgg] at hg⟩
  | cons s ss ih =>
    obtain ⟨ihe, ihs, ihp⟩ := ih (fun src h => hok src (by simp [h]))
      (fun src h => hparse src (by simp [h]))
    rcases hfs : fetch s with ⟨ok, body⟩
    have hok' : ok = true := by
      have := hok s (by simp)
      rwa [hfs] at this
    subst hok'
    obtain ⟨raw, hp⟩ := hparse s (by simp)
    rw [hfs] at hp
    have hz : (s :: ss).zip ((s :: ss).map fetch) =
        (s, (true, body)) :: ss.zip (ss.map fetch) := by
      simp [hfs]
    rw [hz]
    have hagg : newsAgg xmlParse maxItems
        ((s, (true, body)) :: ss.zip (ss.map fetch)) =
        ({ topic := s.topic, source := s.name, sourceUrl := s.url,
           items := (filterHeadlines (parseRssItems raw s.name s.url)
             s.topic).take (maxItems * 2) } ::
          (newsAgg xmlParse maxItems (ss.zip (ss.map fetch))).1,
         (newsAgg xmlParse maxItems (ss.zip (ss.map fetch))).2) := by
      simp [newsAgg, hp]
    rw [hagg]
    refine ⟨by simpa using ihe, by simpa using ihs, ?_⟩
    intro g hg it hit
    rcases List.mem_cons.mp hg with rfl | hg
    · exact mem_filterHeadlines (List.mem_of_mem_take hit)
    · exact ihp g hg it hit

/-! ## Claim theorems -/

/-- C3: for the empty input list, `collect_news_headlines`,
`collect_youtube_videos` and `collect_history_facts` all fail
immediately with their configuration-style error message, and the fetch
trace is empty: no HTTP client is created and no fetch task is spawned. -/
theorem collectors_empty_input_fail_without_fetch :
    (∀ (xmlParse : String → Except String (List RssRawItem))
        (fetch : NewsSource → Bool × String) (maxItems : Nat),
      collectNewsHeadlines xmlParse fetch [] maxItems =
        (Outcome.fail "뉴스 소스가 비어 있습니다.", [])) ∧
    (∀ (decode : String → Except String Json) (env : String → Option String)
        (fetch : String → String → Bool × String),
      collectYoutubeVideos decode env fetch [] =
        (Outcome.fail "검색 키워드가 비어 있습니다.", [])) ∧
    (∀ (histParse : String → Except String (List AtomRawEntry))
        (fetch : List String → Bool × String),
      collectHistoryFacts histParse fetch [] =
        (Outcome.fail "검색 키워드가 비어 있습니다.", [])) :=
  ⟨fun _ _ _ => rfl, fun _ _ _ => rfl, fun _ _ => rfl⟩

/-- C4: two serialized passes through the `_rate_limited_get` critical
section with `RATE_LIMIT_SECONDS = 1.5`: whichever caller wins the lock
fires first, and the second caller — which can only read `last_request`
after the first released the lock — both fires and records its request
time at least 1.5 seconds after the first caller's, so the two callers
never both compute a zero wait and fire within the interval. -/
theorem rateLimiter_spacing (lastReq tAcq1 dur1 tAcq2 dur2 : ℚ)
    (hd1 : 0 ≤ dur1) (hd2 : 0 ≤ dur2)
    (hseq : (rateLimitedGet RATE_LIMIT_SECONDS lastReq tAcq1 dur1 true).release
      ≤ tAcq2) :
    (rateLimitedGet RATE_LIMIT_SECONDS lastReq tAcq1 dur1 true).newLast
        + RATE_LIMIT_SECONDS ≤
      (rateLimitedGet RATE_LIMIT_SECONDS
        (rateLimitedGet RATE_LIMIT_SECONDS lastReq tAcq1 dur1 true).newLast
        tAcq2 dur2 true).newLast ∧
    (rateLimitedGet RATE_LIMIT_SECONDS lastReq tAcq1 dur1 true).fireTime
        + RATE_LIMIT_SECONDS ≤
      (rateLimitedGet RATE_LIMIT_SECONDS
        (rateLimitedGet RATE_LIMIT_SECONDS lastReq tAcq1 dur1 true).newLast
        tAcq2 dur2 true).fireTime := by
  simp only [rateLimitedGet, if_pos] at *
  constructor
  · have h := le_max_right (0 : ℚ)
      (RATE_LIMIT_SECONDS - (tAcq2 - (tAcq1 + max 0
        (RATE_LIMIT_SECONDS - (tAcq1 - lastReq)) + dur1)))
    linarith
  · have h := le_max_right (0 : ℚ)
      (RATE_LIMIT_SECONDS - (tAcq2 - (tAcq1 + max 0
        (RATE_LIMIT_SECONDS - (tAcq1 - lastReq)) + dur1)))
    linarith

/-- C4 witness: concrete run with both callers arriving at time 0. -/
theorem rateLimiter_spacing_witness :
    (0 : ℚ) ≤ 0 ∧
    (rateLimitedGet RATE_LIMIT_SECONDS 0 0 0 true).release ≤ 3 / 2 ∧
    ((rateLimitedGet RATE_LIMIT_SECONDS 0 0 0 true).newLast
        + RATE_LIMIT_SECONDS ≤
      (rateLimitedGet RATE_LIMIT_SECONDS
        (rateLimitedGet RATE_LIMIT_SECONDS 0 0 0 true).newLast
        (3 / 2) 0 true).newLast ∧
    (rateLimitedGet RATE_LIMIT_SECONDS 0 0 0 true).fireTime
        + RATE_LIMIT_SECONDS ≤
      (rateLimitedGet RATE_LIMIT_SECONDS
        (rateLimitedGet RATE_LIMIT_SECONDS 0 0 0 true).newLast
        (3 / 2) 0 true).fireTime) :=
  ⟨le_refl 0,
   by norm_num [rateLimitedGet, RATE_LIMIT_SECONDS],
   rateLimiter_spacing 0 0 0 (3 / 2) 0 (le_refl 0) (le_refl 0)
     (by norm_num [rateLimitedGet, RATE_LIMIT_SECONDS])⟩

/-- C5 counterexample: when the enclosed `client.get` raises (`succ =
false`), `_rate_limited_get` returns on the `except` path without
writing `last_request[0]` — the cell keeps its old value (here `0`),
refuting the claim that every invocation records a new time. -/
theorem rateLimiter_no_write_on_failure :
    (rateLimitedGet RATE_LIMIT_SECONDS 0 0 0 false).wrote = false ∧
    (rateLimitedGet RATE_LIMIT_SECONDS 0 0 0 false).newLast = 0 :=
  ⟨rfl, rfl⟩

/-- C5 amended: `_rate_limited_get` writes a new value into
`last_request[0]` exactly when the enclosed request succeeds — on
success it records the post-request clock reading (fire time plus
request duration) before releasing the lock, and on an exception it
returns failure leaving `last_request[0]` unchanged. -/
theorem rateLimiter_write_iff_success (rate lastReq tAcq dur : ℚ) :
    (rateLimitedGet rate lastReq tAcq dur true).wrote = true ∧
    (rateLimitedGet rate lastReq tAcq dur true).newLast
      = (rateLimitedGet rate lastReq tAcq dur true).fireTime + dur ∧
    (rateLimitedGet rate lastReq tAcq dur false).wrote = false ∧
    (rateLimitedGet rate lastReq tAcq dur false).newLast = lastReq :=
  ⟨rfl, rfl, rfl, rfl⟩

/-- C7: `_normalize_text` is idempotent — re-normalizing an
already-normalized string yields the identical string. -/
theorem normalizeText_idempotent (s : String) :
    normalizeText (normalizeText s) = normalizeText s :=
  normalizeText_idem s

/-- C10: `scout_arxiv.py` defines neither `collect_arxiv_papers` nor
`DEFAULT_QUERIES`, so once both scout modules load,
`collect_scout_payloads` raises `AttributeError` at the
`arxiv_module.collect_arxiv_papers(arxiv_module.DEFAULT_QUERIES, ...)`
call, whatever the rest of the run would have produced — and
`run_humanizer` can therefore never return a success result through
this code path. -/
theorem humanizer_arxiv_attribute_error :
    moduleHasAttr scoutArxivModuleNames "collect_arxiv_papers" = false ∧
    moduleHasAttr scoutArxivModuleNames "DEFAULT_QUERIES" = false ∧
    (∀ afterLookup : PyOutcome,
      collectScoutPayloads afterLookup = PyOutcome.exc "AttributeError") ∧
    (∀ (afterLookup : PyOutcome) (downstream : String → PyOutcome)
        (payload : String),
      runHumanizer afterLookup downstream ≠ PyOutcome.ok payload) := by
  refine ⟨by decide, by decide, fun a => rfl, ?_⟩
  intro a d payload h
  simp only [runHumanizer, collectScoutPayloads] at h
  exact absurd h (by simp [moduleHasAttr, scoutArxivModuleNames])

/-- C1: all-or-nothing aggregation.  For each collector, if any source's
fetch comes back `ok = false` or its payload fails parsing, the run
returns a failure whose message is the `"; "`-joined list of every
individual failure, each prefixed by that source's identifying key
(source name, keyword, or Python-rendered keyword list) — and no success
payload is returned even when every other source succeeded. -/
theorem collectors_all_or_nothing :
    (∀ (xmlParse : String → Except String (List RssRawItem))
        (fetch : NewsSource → Bool × String) (sources : List NewsSource)
        (maxItems : Nat) (src : NewsSource),
      src ∈ sources →
      newsFailMsg xmlParse (src, fetch src) ≠ none →
      collectNewsHeadlines xmlParse fetch sources maxItems =
        (Outcome.fail (String.intercalate "; "
          (sources.filterMap fun s => newsFailMsg xmlParse (s, fetch s))),
         sources)) ∧
    (∀ (decode : String → Except String Json) (env : String → Option String)
        (fetch : String → String → Bool × String) (keywords : List String)
        (apiKey kw : String),
      getApiKey env = some apiKey → apiKey ≠ "" →
      kw ∈ keywords →
      ytFailMsg decode (kw, fetch apiKey kw) ≠ none →
      collectYoutubeVideos decode env fetch keywords =
        (Outcome.fail (String.intercalate "; "
          (keywords.filterMap fun k => ytFailMsg decode (k, fetch apiKey k))),
         keywords)) ∧
    (∀ (histParse : String → Except String (List AtomRawEntry))
        (fetch : List String → Bool × String) (queries : List (List String))
        (q : List String),
      q ∈ queries →
      histFailMsg histParse (q, fetch q) ≠ none →
      collectHistoryFacts histParse fetch queries =
        (Outcome.fail (String.intercalate "; "
          (queries.filterMap fun k => histFailMsg histParse (k, fetch k))),
         queries)) := by
  refine ⟨?_, ?_, ?_⟩
  · intro xmlParse fetch sources maxItems src hmem hfail
    obtain ⟨m, hm⟩ := Option.ne_none_iff_exists'.mp hfail
    have hmem' : m ∈ sources.filterMap fun s => newsFailMsg xmlParse (s, fetch s) :=
      List.mem_filterMap.mpr ⟨src, hmem, hm⟩
    have herr : (sources.filterMap fun s =>
        newsFailMsg xmlParse (s, fetch s)) ≠ [] := List.ne_nil_of_mem hmem'
    have hne : sources.isEmpty = false := by
      cases sources with
      | nil => simp at hmem
      | cons a l => rfl
    simp only [collectNewsHeadlines, hne, Bool.false_eq_true, if_false,
      newsAgg_zip_errors]
    simp [List.isEmpty_iff, herr]
  · intro decode env fetch keywords apiKey kw hkey hkne hmem hfail
    obtain ⟨m, hm⟩ := Option.ne_none_iff_exists'.mp hfail
    have hmem' : m ∈ keywords.filterMap fun k => ytFailMsg decode (k, fetch apiKey k) :=
      List.mem_filterMap.mpr ⟨kw, hmem, hm⟩
    have herr : (keywords.filterMap fun k =>
        ytFailMsg decode (k, fetch apiKey k)) ≠ [] := List.ne_nil_of_mem hmem'
    have hne : keywords.isEmpty = false := by
      cases keywords with
      | nil => simp at hmem
      | cons a l => rfl
    simp only [collectYoutubeVideos, hne, Bool.false_eq_true, if_false, hkey,
      hkne, ytAgg_zip_errors]
    simp [List.isEmpty_iff, herr, hkne]
  · intro histParse fetch queries q hmem hfail
    obtain ⟨m, hm⟩ := Option.ne_none_iff_exists'.mp hfail
    have hmem' : m ∈ queries.filterMap fun k => histFailMsg histParse (k, fetch k) :=
      List.mem_filterMap.mpr ⟨q, hmem, hm⟩
    have herr : (queries.filterMap fun k =>
        histFailMsg histParse (k, fetch k)) ≠ [] := List.ne_nil_of_mem hmem'
    have hne : queries.isEmpty = false := by
      cases queries with
      | nil => simp at hmem
      | cons a l => rfl
    simp only [collectHistoryFacts, hne, Bool.false_eq_true, if_false,
      histAgg_zip_errors]
    simp [List.isEmpty_iff, herr]

/-- C1 witness: one failing source per collector, concrete messages. -/
theorem collectors_all_or_nothing_witness :
    ((⟨"ai", "S", "u"⟩ : NewsSource) ∈ [(⟨"ai", "S", "u"⟩ : NewsSource)] ∧
     newsFailMsg (fun _ => Except.error "bad xml")
       (⟨"ai", "S", "u"⟩, (false, "boom")) ≠ none ∧
     collectNewsHeadlines (fun _ => Except.error "bad xml")
       (fun _ => (false, "boom")) [⟨"ai", "S", "u"⟩] 5 =
       (Outcome.fail "S: boom", [⟨"ai", "S", "u"⟩])) ∧
    (getApiKey (fun k => if k = "YOUTUBE_API_KEY" then some "K" else none)
        = some "K" ∧
     collectYoutubeVideos (fun _ => Except.error "bad json")
       (fun k => if k = "YOUTUBE_API_KEY" then some "K" else none)
       (fun _ _ => (true, "not json")) ["AI"] =
       (Outcome.fail "AI: JSON 파싱 실패 (bad json)", ["AI"])) ∧
    (collectHistoryFacts (fun _ => Except.error "bad atom")
       (fun _ => (false, "down")) [["Napoleon"]] =
       (Outcome.fail "[\x27Napoleon\x27]: down", [["Napoleon"]])) := by
  refine ⟨⟨List.mem_singleton.mpr rfl, by simp [newsFailMsg], ?_⟩, ⟨rfl, ?_⟩, ?_⟩
  · exact collectors_all_or_nothing.1 (fun _ => Except.error "bad xml")
      (fun _ => (false, "boom")) [⟨"ai", "S", "u"⟩] 5 ⟨"ai", "S", "u"⟩
      (List.mem_singleton.mpr rfl) (by simp [newsFailMsg])
  · exact collectors_all_or_nothing.2.1 (fun _ => Except.error "bad json")
      (fun k => if k = "YOUTUBE_API_KEY" then some "K" else none)
      (fun _ _ => (true, "not json")) ["AI"] "K" "AI" rfl (by decide)
      (List.mem_singleton.mpr rfl) (by simp [ytFailMsg])
  · exact collectors_all_or_nothing.2.2 (fun _ => Except.error "bad atom")
      (fun _ => (false, "down")) [["Napoleon"]] ["Napoleon"]
      (List.mem_singleton.mpr rfl) (by simp [histFailMsg])

/-- C2: when every fetch succeeds and every payload parses,
`collect_news_headlines` succeeds with exactly one group per source (in
source order, group source names matching), and every record in a group
passes the case-insensitive keyword filter of that group's topic. -/
theorem collectNews_success_filtered (xmlParse : String → Except String (List RssRawItem))
    (fetch : NewsSource → Bool × String) (sources : List NewsSource)
    (maxItems : Nat) (hne : sources ≠ [])
    (hok : ∀ src ∈ sources, (fetch src).1 = true)
    (hparse : ∀ src ∈ sources, ∃ raw, xmlParse (fetch src).2 = Except.ok raw) :
    ∃ groups : List NewsGroup,
      collectNewsHeadlines xmlParse fetch sources maxItems =
        (Outcome.ok groups, sources) ∧
      groups.map NewsGroup.source = sources.map NewsSource.name ∧
      ∀ g ∈ groups, ∀ it ∈ g.items,
        matchesKeywords (it.title ++ " " ++ it.summary)
          (topicKeywords g.topic) = true := by
  obtain ⟨herr, hsrc, hfilter⟩ :=
    newsAgg_zip_success xmlParse maxItems fetch sources hok hparse
  refine ⟨(newsAgg xmlParse maxItems (sources.zip (sources.map fetch))).1,
    ?_, hsrc, hfilter⟩
  have hnemp : sources.isEmpty = false := by
    cases sources with
    | nil => exact absurd rfl hne
    | cons a l => rfl
  simp only [collectNewsHeadlines, hnemp, Bool.false_eq_true, if_false]
  simp [herr]

/-- C2 witness: one AI-topic source whose feed parses into one matching
and one non-matching item. -/
theorem collectNews_success_filtered_witness :
    ([(⟨"ai", "S", "u"⟩ : NewsSource)] ≠ []) ∧
    (∀ src ∈ [(⟨"ai", "S", "u"⟩ : NewsSource)],
      ((fun (_ : NewsSource) => (true, "feed")) src).1 = true) ∧
    (∃ groups : List NewsGroup,
      collectNewsHeadlines
        (fun _ => Except.ok
          [⟨some "AI breakthrough", some "l1", some "d1", some "all about llm work"⟩,
           ⟨some "gardening tips", some "l2", some "d2", some "tomatoes"⟩])
        (fun _ => (true, "feed")) [⟨"ai", "S", "u"⟩] 5 =
        (Outcome.ok groups, [⟨"ai", "S", "u"⟩]) ∧
      groups.map NewsGroup.source =
        [(⟨"ai", "S", "u"⟩ : NewsSource)].map NewsSource.name ∧
      ∀ g ∈ groups, ∀ it ∈ g.items,
        matchesKeywords (it.title ++ " " ++ it.summary)
          (topicKeywords g.topic) = true) :=
  ⟨by simp,
   fun _ _ => rfl,
   collectNews_success_filtered
     (fun _ => Except.ok
       [⟨some "AI breakthrough", some "l1", some "d1", some "all about llm work"⟩,
        ⟨some "gardening tips", some "l2", some "d2", some "tomatoes"⟩])
     (fun _ => (true, "feed")) [⟨"ai", "S", "u"⟩] 5 (by simp)
     (fun _ _ => rfl) (fun _ _ => ⟨_, rfl⟩)⟩

/-- C6 counterexample: the history ArXiv Atom parser only calls
`.strip()` on its text fields; a title containing an interior newline
survives verbatim, so the produced record's title is not
whitespace-normalized (`_normalize_text` would have yielded `"a b"`). -/
theorem arxiv_title_not_whitespace_normalized :
    (parseArxivFeedHistory
        [⟨some "a\nb", none, none, none, none, none, none, [], []⟩]).map
      ArxivPaperH.title = ["a\nb"] ∧
    normalizeText "a\nb" = "a b" ∧
    ("a\nb" : String) ≠ "a b" := by
  refine ⟨rfl, rfl, by decide⟩

/-- C6 amended: every text field the RSS item parser extracts (title,
link, published date, summary) is whitespace-normalized — a fixed point
of `_normalize_text` — while the two ArXiv Atom parsers only trim
leading and trailing whitespace: their text fields are fixed points of
`str.strip()`, with interior newlines and repeated whitespace
preserved. -/
theorem parser_field_normalization :
    (∀ (raws : List RssRawItem) (name url : String),
      ∀ it ∈ parseRssItems raws name url,
        it.title = normalizeText it.title ∧
        it.url = normalizeText it.url ∧
        it.published = normalizeText it.published ∧
        it.summary = normalizeText it.summary) ∧
    (∀ entries : List AtomRawEntry, ∀ p ∈ parseArxivFeedHistory entries,
        p.title = pythonStrip p.title ∧
        p.summary = pythonStrip p.summary ∧
        p.paperId = pythonStrip p.paperId ∧
        p.published = pythonStrip p.published ∧
        p.updated = pythonStrip p.updated ∧
        p.doi = pythonStrip p.doi ∧
        ∀ a ∈ p.authors, a = pythonStrip a) ∧
    (∀ entries : List ArxivRawEntryA, ∀ p ∈ parseArxivFeed entries,
        p.title = pythonStrip p.title ∧
        p.summary = pythonStrip p.summary ∧
        p.paperId = pythonStrip p.paperId ∧
        p.published = pythonStrip p.published ∧
        ∀ a ∈ p.authors, a = pythonStrip a) := by
  refine ⟨?_, ?_, ?_⟩
  · intro raws name url it hit
    obtain ⟨raw, _, heq⟩ := List.mem_filterMap.mp hit
    by_cases hti : normalizeTextOpt raw.title = ""
    · simp only [hti, if_pos rfl] at heq
      exact absurd heq (by simp)
    · simp only [if_neg hti] at heq
      obtain rfl := Option.some.inj heq
      exact ⟨(normalizeText_idem _).symm, (normalizeText_idem _).symm,
        (normalizeText_idem _).symm, (normalizeText_idem _).symm⟩
  · intro entries p hp
    obtain ⟨e, _, rfl⟩ := List.mem_map.mp hp
    refine ⟨(pythonStrip_idem _).symm, (pythonStrip_idem _).symm,
      (pythonStrip_idem _).symm, (pythonStrip_idem _).symm,
      (pythonStrip_idem _).symm, (pythonStrip_idem _).symm, ?_⟩
    intro a ha
    have ha' := (List.mem_filter.mp ha).1
    obtain ⟨x, _, rfl⟩ := List.mem_map.mp ha'
    exact (pythonStrip_idem _).symm
  · intro entries p hp
    obtain ⟨e, _, rfl⟩ := List.mem_map.mp hp
    refine ⟨(pythonStrip_idem _).symm, (pythonStrip_idem _).symm,
      (pythonStrip_idem _).symm, (pythonStrip_idem _).symm, ?_⟩
    intro a ha
    have ha' := (List.mem_filter.mp ha).1
    obtain ⟨x, _, rfl⟩ := List.mem_map.mp ha'
    exact (pythonStrip_idem _).symm

/-- C6 amended witness: concrete records through all three parsers. -/
theorem parser_field_normalization_witness :
    (∀ it ∈ parseRssItems [⟨some " t\n1 ", some " u ", some "p", some "s"⟩]
        "Src" "url",
      it.title = normalizeText it.title ∧
      it.url = normalizeText it.url ∧
      it.published = normalizeText it.published ∧
      it.summary = normalizeText it.summary) ∧
    (∀ p ∈ parseArxivFeedHistory
        [⟨some " a\nb ", some "s", some "i", some "p", some "u", some "d",
          some "c", [some " au "], [some "h"]⟩],
      p.title = pythonStrip p.title) ∧
    (∀ p ∈ parseArxivFeed [⟨some " a\nb ", some "s", some "i", some "p",
        [some " au "]⟩],
      p.title = pythonStrip p.title) :=
  ⟨fun it hit => parser_field_normalization.1
      [⟨some " t\n1 ", some " u ", some "p", some "s"⟩] "Src" "url" it hit,
   fun p hp => (parser_field_normalization.2.1
      [⟨some " a\nb ", some "s", some "i", some "p", some "u", some "d",
        some "c", [some " au "], [some "h"]⟩] p hp).1,
   fun p hp => (parser_field_normalization.2.2
      [⟨some " a\nb ", some "s", some "i", some "p", [some " au "]⟩] p hp).1⟩

/-- C8: a missing required API key fails the operation before any fetch:
`collect_youtube_videos` with no `YOUTUBE_API_KEY` fails with the
missing-key message and an empty fetch trace (no HTTP client is
created), and `_summarize_with_gemini` with no `GEMINI_API_KEY` fails
with its missing-key message without invoking any model. -/
theorem missing_api_key_short_circuits :
    (∀ (decode : String → Except String Json) (env : String → Option String)
        (fetch : String → String → Bool × String) (keywords : List String),
      keywords ≠ [] → env "YOUTUBE_API_KEY" = none →
      collectYoutubeVideos decode env fetch keywords =
        (Outcome.fail "YOUTUBE_API_KEY가 설정되지 않았습니다.", [])) ∧
    (∀ (env : String → Option String) (configure : String → Bool × String)
        (generate : String → String → Bool × String) (prompt : String),
      env "GEMINI_API_KEY" = none →
      summarizeWithGemini env configure generate prompt =
        ((false, "GEMINI_API_KEY가 설정되지 않았습니다."), [])) := by
  constructor
  · intro decode env fetch keywords hne hkey
    have hnemp : keywords.isEmpty = false := by
      cases keywords with
      | nil => exact absurd rfl hne
      | cons a l => rfl
    simp [collectYoutubeVideos, hnemp, getApiKey, hkey]
  · intro env configure generate prompt hkey
    simp [summarizeWithGemini, hkey]

/-- C8 witness: empty environment, one keyword. -/
theorem missing_api_key_short_circuits_witness :
    (["AI"] ≠ ([] : List String)) ∧
    ((fun (_ : String) => (none : Option String)) "YOUTUBE_API_KEY" = none) ∧
    (collectYoutubeVideos (fun _ => Except.error "e") (fun _ => none)
        (fun _ _ => (true, "ok")) ["AI"] =
      (Outcome.fail "YOUTUBE_API_KEY가 설정되지 않았습니다.", [])) ∧
    (summarizeWithGemini (fun _ => none) (fun _ => (true, "configured"))
        (fun _ _ => (true, "text")) "prompt" =
      ((false, "GEMINI_API_KEY가 설정되지 않았습니다."), [])) :=
  ⟨by simp, rfl,
   missing_api_key_short_circuits.1 (fun _ => Except.error "e") (fun _ => none)
     (fun _ _ => (true, "ok")) ["AI"] (by simp) rfl,
   missing_api_key_short_circuits.2 (fun _ => none)
     (fun _ => (true, "configured")) (fun _ _ => (true, "text")) "prompt" rfl⟩

/-- C9: an empty result set is not an error — for one keyword, API key
present, fetch returning `ok` with a body whose decoded `items` list is
empty, `collect_youtube_videos` succeeds with exactly one group for that
keyword carrying an empty video list. -/
theorem collectYt_empty_items_success (decode : String → Except String Json)
    (env : String → Option String) (fetch : String → String → Bool × String)
    (kw apiKey body : String) (fields : List (String × Json))
    (hkey : getApiKey env = some apiKey) (hkne : apiKey ≠ "")
    (hfetch : fetch apiKey kw = (true, body))
    (hdecode : decode body = Except.ok (Json.obj fields))
    (hitems : jLookup fields "items" = some (Json.arr [])) :
    collectYoutubeVideos decode env fetch [kw] =
      (Outcome.ok [{ keyword := kw, videos := [] }], [kw]) := by
  simp [collectYoutubeVideos, hkey, hkne, hfetch, ytAgg, hdecode, ytItems,
    hitems, parseYoutubeItems]

/-- C9 witness: keyword `"AI"`, key present, HTTP 200 with
`{"items": []}`. -/
theorem collectYt_empty_items_success_witness :
    (getApiKey (fun k => if k = "YOUTUBE_API_KEY" then some "K" else none)
      = some "K") ∧
    ("K" : String) ≠ "" ∧
    (collectYoutubeVideos
        (fun _ => Except.ok (Json.obj [("items", Json.arr [])]))
        (fun k => if k = "YOUTUBE_API_KEY" then some "K" else none)
        (fun _ _ => (true, "\x7b\"items\": []\x7d")) ["AI"] =
      (Outcome.ok [{ keyword := "AI", videos := [] }], ["AI"])) :=
  ⟨rfl, by decide,
   collectYt_empty_items_success
     (fun _ => Except.ok (Json.obj [("items", Json.arr [])]))
     (fun k => if k = "YOUTUBE_API_KEY" then some "K" else none)
     (fun _ _ => (true, "\x7b\"items\": []\x7d")) "AI" "K" "\x7b\"items\": []\x7d"
     [("items", Json.arr [])] rfl (by decide) rfl rfl rfl⟩

end ShortsMake
